import Mathlib

/-!
Verification of the CodeAssist review engine (`review_core.py`).

The Python code is shallow-embedded: the `Issue` dataclass becomes a Lean
structure, each adapter / filter function becomes a Lean function with the
same name, and the interaction with the outside world (subprocess output of
flake8 and bandit, the radon `cc_visit` blocks, the `unidiff.PatchSet` parse
of a diff text) is represented by explicit input values of the shapes those
libraries produce.  Python `str` is modelled by `String`; the path-handling
helpers operate on `List Char` (the character data of a string), which is the
same data Python indexes into.  Python `int` is modelled by `Int`.
-/

namespace CodeAssist

/-- The `Issue` dataclass of `review_core.py`: one finding from one tool. -/
structure Issue where
  file : String
  line : Int
  severity : String
  tool : String
  rule : String
  message : String
  suggestion : Option String := none
deriving DecidableEq, Repr

/-! ### Path normalization (`_normalize_path`) -/

/-- `p[2:]` applied when `p.startswith(("a/", "b/"))`, on character data. -/
def stripAB (l : List Char) : List Char :=
  match l with
  | c1 :: c2 :: rest => if (c1 = 'a' ∨ c1 = 'b') ∧ c2 = '/' then rest else l
  | _ => l

/-- `os.path.basename` (POSIX): the part after the last slash. -/
def basenameChars (l : List Char) : List Char :=
  (l.reverse.takeWhile (fun c => c ≠ '/')).reverse

/-- `_normalize_path`: strip a leading `a/` or `b/`, then take the basename. -/
def _normalize_path (p : List Char) : List Char :=
  basenameChars (stripAB p)

/-- `str.strip()` (ASCII whitespace): drop leading and trailing whitespace. -/
def pyStrip (l : List Char) : List Char :=
  ((l.dropWhile Char.isWhitespace).reverse.dropWhile Char.isWhitespace).reverse

/-- `str.strip()` on a string value. -/
def pyStripStr (s : String) : String :=
  ⟨pyStrip s.data⟩

/-- `str.split(sep)` for a one-character separator, on character data. -/
def splitChar (sep : Char) : List Char → List (List Char)
  | [] => [[]]
  | c :: rest =>
    let r := splitChar sep rest
    if c = sep then [] :: r
    else
      match r with
      | [] => [[c]]
      | x :: xs => (c :: x) :: xs

/-- `str.upper()` (ASCII), character by character. -/
def pyUpper (s : String) : String :=
  ⟨s.data.map Char.toUpper⟩

/-! ### The diff side (`unidiff.PatchSet`)

`PatchSet(diff_text)` parses the diff text into a list of patched files, each
with hunks of lines; a line carries `is_added` and an optional
`target_line_no`.  The parse is a pure function of the diff text, so the
functions below take the parsed list directly. -/

/-- One line of a hunk as exposed by `unidiff`. -/
structure DiffLine where
  is_added : Bool
  target_line_no : Option Int
deriving DecidableEq, Repr

/-- One patched file of a `PatchSet`. -/
structure PatchedFile where
  is_removed_file : Bool
  target_file : String
  hunks : List (List DiffLine)
deriving DecidableEq, Repr

/-- The `added` set collected for one patched file in
`_changed_lines_from_diff` (insertion into a Python `set` is modelled by a
list used only through membership). -/
def addedLines (pf : PatchedFile) : List Int :=
  pf.hunks.flatMap (fun hunk =>
    hunk.filterMap (fun l => if l.is_added then l.target_line_no else none))

/-- The changed-line map `Dict[str, Set[int]]`, as an association list with
Python-dict semantics: at most one entry per key, assignment overwrites. -/
abbrev ChangedMap := List (List Char × List Int)

/-- `changed[k] = v` on a Python dict: replace the value at an existing key
in place, otherwise append a new entry. -/
def dictInsert (m : ChangedMap) (k : List Char) (v : List Int) : ChangedMap :=
  match m with
  | [] => [(k, v)]
  | (k0, v0) :: rest =>
    if k0 = k then (k, v) :: rest else (k0, v0) :: dictInsert rest k v

/-- `k in changed` / `changed[k]` lookup. -/
def lookupD (m : ChangedMap) (k : List Char) : Option (List Int) :=
  match m with
  | [] => none
  | (k0, v) :: rest => if k0 = k then some v else lookupD rest k

/-- `_changed_lines_from_diff`, folding over the parsed patch set exactly as
the Python loop does: removed files are skipped, a file contributes an entry
only when its added set is non-empty. -/
def _changed_lines_from_diff (files : List PatchedFile) : ChangedMap :=
  files.foldl
    (fun changed pf =>
      if pf.is_removed_file then changed
      else
        let added := addedLines pf
        if added.isEmpty then changed
        else dictInsert changed (_normalize_path pf.target_file.data) added)
    []

/-- The retention test of the comprehension in `filter_issues_to_changed_lines`:
`_normalize_path(i.file) in changed and i.line in changed[_normalize_path(i.file)]`. -/
def issueKept (changed : ChangedMap) (i : Issue) : Bool :=
  match lookupD changed (_normalize_path i.file.data) with
  | some s => decide (i.line ∈ s)
  | none => false

/-- `filter_issues_to_changed_lines`. -/
def filter_issues_to_changed_lines (issues : List Issue) (files : List PatchedFile) :
    List Issue :=
  let changed := _changed_lines_from_diff files
  if changed.isEmpty then issues
  else issues.filter (issueKept changed)

/-! ### Python `int(...)` on JSON values

`run_bandit` applies `int` to whatever `json.loads` put under
`"line_number"`.  A parsed JSON value is null, a boolean, a number, a string,
an array or an object; `int` accepts numbers, booleans and integer-literal
strings and raises `ValueError`/`TypeError` on everything else.  Arrays and
objects are collapsed to payload-free constructors because `int` rejects them
regardless of their contents and nothing else in the code looks inside them. -/

inductive JsonVal where
  | jnull
  | jbool (b : Bool)
  | jnum (n : Int)
  | jstr (s : String)
  | jarr
  | jobj
deriving DecidableEq, Repr

/-- Decimal value of a digit run. -/
def digitsVal (l : List Char) : Nat :=
  l.foldl (fun a c => a * 10 + (c.toNat - '0'.toNat)) 0

/-- Python `int(s)` for a string: strip whitespace, optional sign, then a
non-empty run of digits; anything else raises (modelled as `none`).
(Underscore digit separators, accepted by CPython, are not modelled; no
theorem below evaluates such a string.) -/
def pyIntOfStr (s : String) : Option Int :=
  match pyStrip s.data with
  | [] => none
  | '+' :: ds =>
    if ds ≠ [] ∧ ds.all (fun c => c.isDigit) then some (digitsVal ds : Int) else none
  | '-' :: ds =>
    if ds ≠ [] ∧ ds.all (fun c => c.isDigit) then some (-(digitsVal ds : Int)) else none
  | ds =>
    if ds.all (fun c => c.isDigit) then some (digitsVal ds : Int) else none

/-- Python `int(v)` on a JSON value; `none` models a raised
`ValueError`/`TypeError`. -/
def pyInt : JsonVal → Option Int
  | .jnum n => some n
  | .jbool b => some (if b then 1 else 0)
  | .jstr s => pyIntOfStr s
  | _ => none

/-! ### The bandit adapter (`run_bandit`) -/

/-- One record of the `"results"` array of bandit's JSON output, as consumed
by `run_bandit` through `res.get(...)`.  Per bandit's output format,
`issue_severity`, `test_id` and `issue_text` are strings when present;
`line_number` is kept as a general JSON value because `run_bandit` pushes it
through `int(...)`. -/
structure BanditRes where
  line_number : Option JsonVal
  issue_severity : Option String
  test_id : Option String
  issue_text : Option String
deriving DecidableEq, Repr

/-- `(res.get("issue_severity") or "LOW").upper()`: a missing or empty
(falsy) severity becomes `"LOW"`, otherwise it is uppercased. -/
def pySevUpper (o : Option String) : String :=
  match o with
  | some s => if s = "" then "LOW" else pyUpper s
  | none => "LOW"

/-- The body of the `for res in data.get("results", [])` loop in `run_bandit`
for one record.  `int(res.get("line_number", 1))` is `1` when the key is
absent, and raises (modelled as `Except.error`) when the value is present but
not convertible to an integer — only `json.JSONDecodeError` is caught by the
surrounding `try`, not `ValueError`/`TypeError`. -/
def processBanditResult (hint : String) (r : BanditRes) : Except String Issue :=
  match (match r.line_number with | none => some (1 : Int) | some v => pyInt v) with
  | none => Except.error "ValueError: invalid line_number"
  | some n =>
    Except.ok
      ⟨hint, n, pySevUpper r.issue_severity, "bandit",
        r.test_id.getD "BXXX", r.issue_text.getD "Security issue", none⟩

/-- The `run_bandit` result loop: appends the issue for each record, and an
uncaught exception aborts the loop (and the whole call), discarding the
issues accumulated so far. -/
def banditLoop (hint : String) : List BanditRes → List Issue → Except String (List Issue)
  | [], acc => Except.ok acc
  | r :: rest, acc =>
    match processBanditResult hint r with
    | Except.ok i => banditLoop hint rest (acc ++ [i])
    | Except.error e => Except.error e

/-- The observable outcome of running `python -m bandit` and decoding its
stdout: the interpreter was not found (`FileNotFoundError`), the stdout was
not JSON (`json.JSONDecodeError`, caught: zero issues), or it decoded to a
document whose `"results"` array holds the given records (an empty stdout or
a document without `"results"` is `results []`). -/
inductive BanditOutcome where
  | notFound
  | decodeError
  | results (rs : List BanditRes)
deriving Repr

/-- `run_bandit` over the decoded subprocess outcome. -/
def run_bandit (hint : String) : BanditOutcome → Except String (List Issue)
  | .notFound =>
    Except.ok
      [⟨hint, 1, "LOW", "bandit", "INSTALL",
        "bandit not found. Did you install requirements?", none⟩]
  | .decodeError => Except.ok []
  | .results rs => banditLoop hint rs []

/-! ### The flake8 adapter (`run_flake8`) -/

/-- `line.split("|", 3)`: at most three splits, the remainder stays joined in
the fourth part. -/
def pySplit3 (line : String) : List String :=
  let parts := splitChar '|' line.data
  if parts.length ≤ 4 then parts.map (fun l => (⟨l⟩ : String))
  else (parts.take 3).map (fun l => (⟨l⟩ : String))
    ++ [⟨List.intercalate ['|'] (parts.drop 3)⟩]

/-- One iteration of the `run_flake8` parsing loop: unpack
`row|col|code|text` and convert the row with `int(...)`; a `ValueError` from
either step is caught and the line skipped (`none`).  The column is read but
discarded. -/
def parseFlake8Line (hint : String) (line : String) : Option Issue :=
  match pySplit3 line with
  | [row, _col, code, text] =>
    (pyIntOfStr row).map (fun n => ⟨hint, n, "LOW", "flake8", code, text, none⟩)
  | _ => none

/-- `s.splitlines()` for POSIX newlines (flake8 output); `""` has no lines. -/
def pySplitlines (s : String) : List String :=
  if s.data = [] then []
  else (splitChar '\n' s.data).map (fun l => (⟨l⟩ : String))

/-- The observable outcome of running `python -m flake8`: interpreter not
found, or a captured stdout text. -/
inductive Flake8Outcome where
  | notFound
  | stdout (s : String)
deriving Repr

/-- `run_flake8` over the subprocess outcome: the per-line loop appends each
successfully parsed issue. -/
def run_flake8 (hint : String) : Flake8Outcome → List Issue
  | .notFound =>
    [⟨hint, 1, "LOW", "flake8", "INSTALL",
      "flake8 not found. Did you install requirements?", none⟩]
  | .stdout s =>
    (pySplitlines (pyStripStr s)).foldl
      (fun acc line =>
        match parseFlake8Line hint line with
        | some i => acc ++ [i]
        | none => acc)
      []

/-! ### The complexity adapter (`run_complexity`) -/

/-- One block returned by radon's `cc_visit`: a function/block with a name,
a cyclomatic-complexity score and a starting line. -/
structure Block where
  name : String
  complexity : Int
  lineno : Int
deriving DecidableEq, Repr

/-- The message built for a too-complex block. -/
def ccMessage (b : Block) : String :=
  "Function '" ++ b.name ++ "' is too complex (CC=" ++ toString b.complexity ++ ")."

/-- `run_complexity` over the `cc_visit` blocks: the loop appends an issue
for each block whose complexity reaches the threshold (Python default 3). -/
def run_complexity (hint : String) (cc_threshold : Int) (blocks : List Block) :
    List Issue :=
  blocks.foldl
    (fun acc b =>
      if cc_threshold ≤ b.complexity then
        acc ++ [⟨hint, b.lineno, "MEDIUM", "complexity", "CC", ccMessage b, none⟩]
      else acc)
    []

/-! ### Suggestions and the aggregator -/

/-- `friendly_suggestion`. -/
def friendly_suggestion (i : Issue) : Option String :=
  if i.tool = "complexity" then
    some "Extract smaller functions; reduce nesting/branches."
  else if i.tool = "bandit" then
    some "Avoid unsafe functions (e.g., eval); validate and sanitize inputs."
  else if i.tool = "flake8" then
    some "Follow PEP 8 (naming, spacing, line length) for readability."
  else none

/-- The annotation step `i.suggestion = friendly_suggestion(i)` of
`review_code_string`, as a field update. -/
def annotate (i : Issue) : Issue :=
  ⟨i.file, i.line, i.severity, i.tool, i.rule, i.message, friendly_suggestion i⟩

/-- `review_code_string`: run the three adapters, concatenate
(flake8 ++ bandit ++ complexity), annotate every issue.  An uncaught
exception from `run_bandit` propagates to the caller. -/
def review_code_string (hint : String) (f8o : Flake8Outcome) (bdo : BanditOutcome)
    (blocks : List Block) : Except String (List Issue) :=
  let f8 := run_flake8 hint f8o
  match run_bandit hint bdo with
  | Except.error e => Except.error e
  | Except.ok bd =>
    let cx := run_complexity hint 3 blocks
    Except.ok ((f8 ++ bd ++ cx).map annotate)

/-! ### The renderer (`issues_to_markdown`) -/

/-- `"\n".join(lines)`. -/
def pyJoin (sep : String) : List String → String
  | [] => ""
  | x :: xs => xs.foldl (fun a b => a ++ sep ++ b) x

/-- The markdown bullet built for one issue, tip appended only for a truthy
(non-`None`, non-empty) suggestion. -/
def renderIssue (iss : Issue) : String :=
  let tip :=
    match iss.suggestion with
    | some s => if s = "" then "" else " Tip: " ++ s
    | none => ""
  "- **" ++ pyUpper iss.tool ++ " " ++ iss.rule ++ "** (" ++ iss.severity ++
    ") at `" ++ iss.file ++ ":" ++ toString iss.line ++ "` — " ++ iss.message ++ tip

/-- The argument of `issues_to_markdown`, which accepts either a plain string
or a sequence of issues.  (The `hasattr(iss, "tool")` guard in the loop can
only skip foreign elements, which a typed issue list cannot contain.) -/
inductive RenderArg where
  | ofString (s : String)
  | ofIssues (l : List Issue)
deriving Repr

/-- `issues_to_markdown`. -/
def issues_to_markdown : RenderArg → String
  | .ofString s => s
  | .ofIssues [] => "✅ No issues found. Great job!"
  | .ofIssues (i :: rest) =>
    pyJoin "\n" ("### Review Comments" :: (i :: rest).map renderIssue)

/-! ### Spec-side predicates

The line-number invariant of the spec holds only under the documented
contracts of the external analyzers (flake8 rows, bandit `line_number` and
radon `lineno` are 1-based); the predicates below state exactly that about a
subprocess outcome, decidably. -/

/-- One flake8 output line reports a 1-based row, whenever it parses at all. -/
def lineRowPosB (line : String) : Bool :=
  match pySplit3 line with
  | [row, _, _, _] =>
    match pyIntOfStr row with
    | some n => decide (1 ≤ n)
    | none => true
  | _ => true

/-- Every parseable row of the flake8 stdout is 1-based. -/
def flake8PosB : Flake8Outcome → Bool
  | .notFound => true
  | .stdout s => (pySplitlines (pyStripStr s)).all lineRowPosB

/-- A bandit record's `line_number`, when present and convertible, is 1-based. -/
def banditResPosB (r : BanditRes) : Bool :=
  match r.line_number with
  | some v =>
    match pyInt v with
    | some n => decide (1 ≤ n)
    | none => true
  | none => true

/-- Every record of the bandit outcome reports a 1-based line. -/
def banditPosB : BanditOutcome → Bool
  | .results rs => rs.all banditResPosB
  | _ => true

/-- Every radon block starts at a 1-based line. -/
def blocksPosB (blocks : List Block) : Bool :=
  blocks.all (fun b => decide (1 ≤ b.lineno))

/-- `mid` occurs as a contiguous substring of `big`. -/
def strContains (big mid : String) : Prop :=
  ∃ x y, big = x ++ mid ++ y

/-! ### Helper lemmas -/

lemma takeWhile_of_all {p : Char → Bool} {l : List Char} (h : ∀ c ∈ l, p c) :
    l.takeWhile p = l :=
  List.takeWhile_eq_self_iff.mpr h

lemma takeWhile_append_stop {p : Char → Bool} {xs : List Char}
    (hxs : ∀ c ∈ xs, p c) {y : Char} (hy : p y = false) (ys : List Char) :
    (xs ++ y :: ys).takeWhile p = xs := by
  induction xs with
  | nil => simp [List.takeWhile, hy]
  | cons c t ih =>
    have hc : p c := hxs c (List.mem_cons_self c t)
    simp only [List.cons_append, List.takeWhile_cons, hc, if_true]
    rw [ih (fun c hc => hxs c (List.mem_cons_of_mem _ hc))]

lemma basenameChars_no_slash {l : List Char} (h : ∀ c ∈ l, c ≠ '/') :
    basenameChars l = l := by
  unfold basenameChars
  rw [takeWhile_of_all, List.reverse_reverse]
  intro c hc
  simpa using h c (List.mem_reverse.mp hc)

lemma basenameChars_append_slash {f : List Char} (hf : ∀ c ∈ f, c ≠ '/')
    (m : List Char) : basenameChars (m ++ '/' :: f) = f := by
  unfold basenameChars
  have : (m ++ '/' :: f).reverse = f.reverse ++ '/' :: m.reverse := by
    simp
  rw [this, takeWhile_append_stop ?_ (by simp) _, List.reverse_reverse]
  intro c hc
  simpa using hf c (List.mem_reverse.mp hc)

lemma stripAB_no_slash {l : List Char} (h : ∀ c ∈ l, c ≠ '/') :
    stripAB l = l := by
  cases l with
  | nil => rfl
  | cons c1 t =>
    cases t with
    | nil => rfl
    | cons c2 rest =>
      show (if (c1 = 'a' ∨ c1 = 'b') ∧ c2 = '/' then rest else _) = _
      rw [if_neg]
      rintro ⟨-, h2⟩
      exact h c2 (by simp) h2

lemma normalize_no_slash {f : List Char} (h : ∀ c ∈ f, c ≠ '/') :
    _normalize_path f = f := by
  unfold _normalize_path
  rw [stripAB_no_slash h, basenameChars_no_slash h]

lemma normalize_dir_slash {f : List Char} (hf : ∀ c ∈ f, c ≠ '/')
    (l0 : List Char) : _normalize_path (l0 ++ '/' :: f) = f := by
  unfold _normalize_path
  cases l0 with
  | nil =>
    have hstr : stripAB ('/' :: f) = '/' :: f := by
      cases f with
      | nil => rfl
      | cons c rest =>
        show (if ('/' = 'a' ∨ '/' = 'b') ∧ c = '/' then rest else '/' :: c :: rest)
          = '/' :: c :: rest
        exact if_neg (fun hcon => absurd hcon.1 (by decide))
    rw [List.nil_append, hstr]
    exact basenameChars_append_slash hf []
  | cons c1 t =>
    cases t with
    | nil =>
      show basenameChars (stripAB (c1 :: '/' :: f)) = f
      show basenameChars (if (c1 = 'a' ∨ c1 = 'b') ∧ '/' = '/' then f else _) = f
      by_cases hc : (c1 = 'a' ∨ c1 = 'b') ∧ '/' = '/'
      · rw [if_pos hc, basenameChars_no_slash hf]
      · rw [if_neg hc]
        exact basenameChars_append_slash hf [c1]
    | cons c2 t2 =>
      show basenameChars (stripAB (c1 :: c2 :: (t2 ++ '/' :: f))) = f
      show basenameChars
          (if (c1 = 'a' ∨ c1 = 'b') ∧ c2 = '/' then t2 ++ '/' :: f else _) = f
      by_cases hc : (c1 = 'a' ∨ c1 = 'b') ∧ c2 = '/'
      · rw [if_pos hc]
        exact basenameChars_append_slash hf t2
      · rw [if_neg hc]
        exact basenameChars_append_slash hf (c1 :: c2 :: t2)

lemma run_flake8_foldl (hint : String) (lines : List String) (acc : List Issue) :
    lines.foldl
        (fun acc line =>
          match parseFlake8Line hint line with
          | some i => acc ++ [i]
          | none => acc) acc
      = acc ++ lines.filterMap (parseFlake8Line hint) := by
  induction lines generalizing acc with
  | nil => simp
  | cons x xs ih =>
    cases hx : parseFlake8Line hint x <;>
      simp [hx, ih, List.filterMap_cons]

lemma run_flake8_stdout_eq (hint s : String) :
    run_flake8 hint (.stdout s)
      = (pySplitlines (pyStripStr s)).filterMap (parseFlake8Line hint) := by
  show (pySplitlines (pyStripStr s)).foldl _ [] = _
  rw [run_flake8_foldl, List.nil_append]

lemma run_complexity_foldl (hint : String) (t : Int) (blocks : List Block)
    (acc : List Issue) :
    blocks.foldl
        (fun acc b =>
          if t ≤ b.complexity then
            acc ++ [⟨hint, b.lineno, "MEDIUM", "complexity", "CC", ccMessage b, none⟩]
          else acc) acc
      = acc ++ (blocks.filter (fun b => decide (t ≤ b.complexity))).map
          (fun b => ⟨hint, b.lineno, "MEDIUM", "complexity", "CC", ccMessage b, none⟩) := by
  induction blocks generalizing acc with
  | nil => simp
  | cons b bs ih =>
    by_cases hb : t ≤ b.complexity <;>
      simp [hb, ih, List.filter_cons]

lemma run_complexity_eq (hint : String) (t : Int) (blocks : List Block) :
    run_complexity hint t blocks
      = (blocks.filter (fun b => decide (t ≤ b.complexity))).map
          (fun b => ⟨hint, b.lineno, "MEDIUM", "complexity", "CC", ccMessage b, none⟩) := by
  show blocks.foldl _ [] = _
  rw [run_complexity_foldl, List.nil_append]

lemma banditLoop_ok_mem {hint : String} {rs : List BanditRes} {acc l : List Issue}
    {i : Issue} (h : banditLoop hint rs acc = Except.ok l) (hi : i ∈ l) :
    i ∈ acc ∨ ∃ r ∈ rs, processBanditResult hint r = Except.ok i := by
  induction rs generalizing acc with
  | nil =>
    simp only [banditLoop, Except.ok.injEq] at h
    subst h
    exact Or.inl hi
  | cons r rest ih =>
    simp only [banditLoop] at h
    cases hp : processBanditResult hint r with
    | ok j =>
      rw [hp] at h
      rcases ih h with hmem | ⟨r', hr', hpr'⟩
      · rcases List.mem_append.mp hmem with hmem | hmem
        · exact Or.inl hmem
        · right
          refine ⟨r, List.mem_cons_self r rest, ?_⟩
          rw [hp, List.mem_singleton.mp hmem]
      · exact Or.inr ⟨r', List.mem_cons_of_mem _ hr', hpr'⟩
    | error e =>
      rw [hp] at h
      exact absurd h (by simp)

lemma processBanditResult_ok_inv {hint : String} {r : BanditRes} {i : Issue}
    (h : processBanditResult hint r = Except.ok i) :
    i.file = hint ∧ i.tool = "bandit" ∧ i.suggestion = none ∧
      ((r.line_number = none ∧ i.line = 1) ∨
        ∃ v, r.line_number = some v ∧ pyInt v = some i.line) := by
  unfold processBanditResult at h
  split at h
  next => exact absurd h (by simp)
  next n heq =>
    simp only [Except.ok.injEq] at h
    subst h
    refine ⟨rfl, rfl, rfl, ?_⟩
    cases hv : r.line_number with
    | none =>
      rw [hv] at heq
      simp only [Option.some.injEq] at heq
      exact Or.inl ⟨rfl, by rw [heq]⟩
    | some v =>
      rw [hv] at heq
      exact Or.inr ⟨v, rfl, heq⟩

lemma parseFlake8Line_some_inv {hint line : String} {i : Issue}
    (h : parseFlake8Line hint line = some i) :
    i.file = hint ∧ i.tool = "flake8" ∧ i.severity = "LOW" ∧ i.suggestion = none ∧
      ∃ row col code text, pySplit3 line = [row, col, code, text] ∧
        pyIntOfStr row = some i.line := by
  unfold parseFlake8Line at h
  split at h
  next row col code text heq =>
    rcases Option.map_eq_some'.mp h with ⟨n, hn, hi⟩
    subst hi
    exact ⟨rfl, rfl, rfl, rfl, row, col, code, text, heq, hn⟩
  next => exact absurd h (by simp)

lemma mem_review_ok {hint : String} {f8o : Flake8Outcome} {bdo : BanditOutcome}
    {blocks : List Block} {l : List Issue} {i : Issue}
    (h : review_code_string hint f8o bdo blocks = Except.ok l) (hi : i ∈ l) :
    ∃ j, i = annotate j ∧
      (j ∈ run_flake8 hint f8o ∨
        (∃ bd, run_bandit hint bdo = Except.ok bd ∧ j ∈ bd) ∨
        j ∈ run_complexity hint 3 blocks) := by
  unfold review_code_string at h
  cases hb : run_bandit hint bdo with
  | error e =>
    rw [hb] at h
    exact absurd h (by simp)
  | ok bd =>
    rw [hb] at h
    simp only [Except.ok.injEq] at h
    subst h
    rcases List.mem_map.mp hi with ⟨j, hj, hij⟩
    refine ⟨j, hij.symm, ?_⟩
    rcases List.mem_append.mp hj with hj | hj
    · rcases List.mem_append.mp hj with hj | hj
      · exact Or.inl hj
      · exact Or.inr (Or.inl ⟨bd, rfl, hj⟩)
    · exact Or.inr (Or.inr hj)

lemma mem_run_complexity_inv {hint : String} {t : Int} {blocks : List Block}
    {i : Issue} (h : i ∈ run_complexity hint t blocks) :
    ∃ b ∈ blocks, t ≤ b.complexity ∧
      i = ⟨hint, b.lineno, "MEDIUM", "complexity", "CC", ccMessage b, none⟩ := by
  rw [run_complexity_eq] at h
  rcases List.mem_map.mp h with ⟨b, hb, hib⟩
  rcases List.mem_filter.mp hb with ⟨hbmem, hbc⟩
  exact ⟨b, hbmem, by simpa using hbc, hib.symm⟩

lemma tool_of_mem_adapters {hint : String} {f8o : Flake8Outcome}
    {bdo : BanditOutcome} {blocks : List Block} {j : Issue}
    (h : j ∈ run_flake8 hint f8o ∨
      (∃ bd, run_bandit hint bdo = Except.ok bd ∧ j ∈ bd) ∨
      j ∈ run_complexity hint 3 blocks) :
    j.tool = "flake8" ∨ j.tool = "bandit" ∨ j.tool = "complexity" := by
  rcases h with h | ⟨bd, hbd, h⟩ | h
  · left
    cases f8o with
    | notFound =>
      simp only [run_flake8, List.mem_singleton] at h
      rw [h]
    | stdout s =>
      rw [run_flake8_stdout_eq] at h
      rcases List.mem_filterMap.mp h with ⟨line, -, hp⟩
      exact (parseFlake8Line_some_inv hp).2.1
  · right; left
    cases bdo with
    | notFound =>
      simp only [run_bandit, Except.ok.injEq] at hbd
      subst hbd
      rw [List.mem_singleton.mp h]
    | decodeError =>
      simp only [run_bandit, Except.ok.injEq] at hbd
      subst hbd
      exact absurd h (by simp)
    | results rs =>
      rcases banditLoop_ok_mem hbd h with hmem | ⟨r, -, hpr⟩
      · exact absurd hmem (by simp)
      · exact (processBanditResult_ok_inv hpr).2.1
  · right; right
    rcases mem_run_complexity_inv h with ⟨b, -, -, hib⟩
    rw [hib]

/-! ### Claim theorems -/

/-- **C4.** Filtering a list of issues to the changed lines of a diff is
idempotent: applying `filter_issues_to_changed_lines` twice with the same
(parsed) diff equals applying it once. -/
theorem filter_changed_idempotent (issues : List Issue) (files : List PatchedFile) :
    filter_issues_to_changed_lines (filter_issues_to_changed_lines issues files) files
      = filter_issues_to_changed_lines issues files := by
  unfold filter_issues_to_changed_lines
  by_cases h : (_changed_lines_from_diff files).isEmpty = true
  · simp [h]
  · simp only [h, if_false, Bool.false_eq_true]
    rw [List.filter_filter]
    simp

/-- **C5.** When the changed-line map computed from the diff is empty,
`filter_issues_to_changed_lines` returns the input list unchanged; the map is
empty for an empty diff (no patched files) and for a diff touching only
removed files. -/
theorem filter_empty_map_noop (issues : List Issue) (files : List PatchedFile) :
    (_changed_lines_from_diff files = [] →
      filter_issues_to_changed_lines issues files = issues) ∧
    _changed_lines_from_diff [] = [] ∧
    (∀ pf : PatchedFile, pf.is_removed_file = true →
      _changed_lines_from_diff [pf] = []) := by
  refine ⟨fun h => ?_, rfl, fun pf hpf => ?_⟩
  · simp [filter_issues_to_changed_lines, h]
  · simp [_changed_lines_from_diff, hpf]

/-- Witness for **C5**: a diff consisting of one wholly removed file (even
one with added lines in its hunks) produces an empty changed-line map, and
filtering with it returns the input list unchanged. -/
theorem filter_empty_map_noop_witness :
    filter_issues_to_changed_lines
        [⟨"snippet.py", 2, "LOW", "flake8", "E302", "m", none⟩]
        [⟨true, "b/snippet.py", [[⟨true, some 5⟩]]⟩]
      = [⟨"snippet.py", 2, "LOW", "flake8", "E302", "m", none⟩] :=
  (filter_empty_map_noop
      [⟨"snippet.py", 2, "LOW", "flake8", "E302", "m", none⟩]
      [⟨true, "b/snippet.py", [[⟨true, some 5⟩]]⟩]).1 rfl

/-- **C7.** `run_complexity` emits an issue (severity `MEDIUM`, tool
`complexity`, rule `CC`, message naming the function and its score) for
exactly the blocks whose cyclomatic complexity reaches the threshold: a block
at exactly the threshold is reported, one strictly below yields no issue. -/
theorem run_complexity_threshold (hint : String) (t : Int) (blocks : List Block) :
    run_complexity hint t blocks
      = (blocks.filter (fun b => decide (t ≤ b.complexity))).map
          (fun b => ⟨hint, b.lineno, "MEDIUM", "complexity", "CC", ccMessage b, none⟩) ∧
    (∀ b : Block, ccMessage b
        = "Function '" ++ b.name ++ "' is too complex (CC="
            ++ toString b.complexity ++ ").") ∧
    (∀ (name : String) (ln : Int), run_complexity hint t [⟨name, t, ln⟩]
        = [⟨hint, ln, "MEDIUM", "complexity", "CC", ccMessage ⟨name, t, ln⟩, none⟩]) ∧
    (∀ b : Block, b.complexity < t → run_complexity hint t [b] = []) := by
  refine ⟨run_complexity_eq hint t blocks, fun b => rfl, fun name ln => ?_,
    fun b hb => ?_⟩
  · rw [run_complexity_eq]
    simp
  · rw [run_complexity_eq]
    simp [List.filter_cons, not_le.mpr hb]

/-- Witness for **C7**: with the default threshold 3, a block of complexity
exactly 3 is reported and a block of complexity 2 is not. -/
theorem run_complexity_threshold_witness :
    run_complexity "snippet.py" 3 [⟨"f", 3, 10⟩]
      = [⟨"snippet.py", 10, "MEDIUM", "complexity", "CC",
          "Function 'f' is too complex (CC=3).", none⟩] ∧
    run_complexity "snippet.py" 3 [⟨"g", 2, 4⟩] = [] := by
  constructor
  · rw [(run_complexity_threshold "snippet.py" 3 []).2.2.1 "f" 10]
    rfl
  · exact (run_complexity_threshold "snippet.py" 3 []).2.2.2 ⟨"g", 2, 4⟩ (by decide)

/-- **C6.** `_normalize_path` strips a leading `a/` or `b/` and reduces to
the basename, so for a slash-free file name `f` the paths `a/f`, `b/f`, `f`
and `dir/f` all normalize to `f`; consequently an issue whose `file` is `f`
is retained against a diff entry with target path `b/f` when its line is in
that entry's added-line set. -/
theorem normalize_path_matching (f : String) (hf : ∀ c ∈ f.data, c ≠ '/') :
    _normalize_path ("a/" ++ f).data = f.data ∧
    _normalize_path ("b/" ++ f).data = f.data ∧
    _normalize_path f.data = f.data ∧
    (∀ d : String, _normalize_path (d ++ "/" ++ f).data = f.data) ∧
    (∀ (i : Issue) (pf : PatchedFile) (issues : List Issue),
      i.file = f → pf.target_file = "b/" ++ f → pf.is_removed_file = false →
      i.line ∈ addedLines pf → i ∈ issues →
      i ∈ filter_issues_to_changed_lines issues [pf]) := by
  have hb : _normalize_path ("b/" ++ f).data = f.data := by
    have hdata : ("b/" ++ f).data = 'b' :: '/' :: f.data := rfl
    rw [hdata]
    exact normalize_dir_slash hf ['b']
  refine ⟨?_, hb, normalize_no_slash hf, fun d => ?_, ?_⟩
  · have hdata : ("a/" ++ f).data = 'a' :: '/' :: f.data := rfl
    rw [hdata]
    exact normalize_dir_slash hf ['a']
  · have hdata : (d ++ "/" ++ f).data = d.data ++ '/' :: f.data := by
      show (d.data ++ ['/']) ++ f.data = d.data ++ '/' :: f.data
      simp
    rw [hdata]
    exact normalize_dir_slash hf d.data
  · intro i pf issues hfile htf hrem hline hmem
    have hkey : _normalize_path pf.target_file.data = f.data := by
      rw [htf]
      exact hb
    have hne : addedLines pf ≠ [] := List.ne_nil_of_mem hline
    have hchanged : _changed_lines_from_diff [pf] = [(f.data, addedLines pf)] := by
      unfold _changed_lines_from_diff
      simp [hrem, hne, hkey, dictInsert]
    unfold filter_issues_to_changed_lines
    rw [hchanged]
    refine List.mem_filter.mpr ⟨hmem, ?_⟩
    unfold issueKept
    rw [hfile, normalize_no_slash hf]
    simp [lookupD, hline]

/-- Witness for **C6**: the issue at `snippet.py:3` is retained by a diff
whose only entry targets `b/snippet.py` and adds line 3. -/
theorem normalize_path_matching_witness :
    ⟨"snippet.py", 3, "LOW", "flake8", "E302", "m", none⟩
      ∈ filter_issues_to_changed_lines
          [⟨"snippet.py", 3, "LOW", "flake8", "E302", "m", none⟩]
          [⟨false, "b/snippet.py", [[⟨true, some 3⟩, ⟨false, some 4⟩]]⟩] :=
  (normalize_path_matching "snippet.py" (by decide)).2.2.2.2
    ⟨"snippet.py", 3, "LOW", "flake8", "E302", "m", none⟩
    ⟨false, "b/snippet.py", [[⟨true, some 3⟩, ⟨false, some 4⟩]]⟩
    [⟨"snippet.py", 3, "LOW", "flake8", "E302", "m", none⟩]
    rfl rfl rfl (by decide) (by decide)

/-- **C9.** When two non-removed patched files with non-empty added-line
sets normalize to the same key, the changed-line map keeps only the later
file's set — the earlier file's set is overwritten, not unioned — so
filtering drops an issue whose line was added only by the earlier file. -/
theorem changed_map_overwrite_shadowing (pf1 pf2 : PatchedFile)
    (h1 : pf1.is_removed_file = false) (h2 : pf2.is_removed_file = false)
    (hne1 : addedLines pf1 ≠ []) (hne2 : addedLines pf2 ≠ [])
    (hkey : _normalize_path pf1.target_file.data
      = _normalize_path pf2.target_file.data) :
    _changed_lines_from_diff [pf1, pf2]
      = [(_normalize_path pf2.target_file.data, addedLines pf2)] ∧
    (∀ i : Issue,
      _normalize_path i.file.data = _normalize_path pf2.target_file.data →
      i.line ∈ addedLines pf1 → i.line ∉ addedLines pf2 →
      filter_issues_to_changed_lines [i] [pf1, pf2] = []) := by
  have hmap : _changed_lines_from_diff [pf1, pf2]
      = [(_normalize_path pf2.target_file.data, addedLines pf2)] := by
    unfold _changed_lines_from_diff
    simp [h1, h2, hne1, hne2, dictInsert, hkey]
  refine ⟨hmap, fun i hif hin hout => ?_⟩
  unfold filter_issues_to_changed_lines
  rw [hmap]
  simp [issueKept, lookupD, hif, hout]

/-- Witness for **C9**: two entries for `a/pkg/mod.py` and `b/mod.py` both
normalize to `mod.py`; only the later entry's line 9 survives, and an issue
at line 4 (added only by the earlier entry) is filtered out. -/
theorem changed_map_overwrite_shadowing_witness :
    _changed_lines_from_diff
        [⟨false, "a/pkg/mod.py", [[⟨true, some 4⟩]]⟩,
          ⟨false, "b/mod.py", [[⟨true, some 9⟩]]⟩]
      = [("mod.py".data, [9])] ∧
    filter_issues_to_changed_lines
        [⟨"mod.py", 4, "LOW", "flake8", "E1", "m", none⟩]
        [⟨false, "a/pkg/mod.py", [[⟨true, some 4⟩]]⟩,
          ⟨false, "b/mod.py", [[⟨true, some 9⟩]]⟩] = [] := by
  have h := changed_map_overwrite_shadowing
    ⟨false, "a/pkg/mod.py", [[⟨true, some 4⟩]]⟩
    ⟨false, "b/mod.py", [[⟨true, some 9⟩]]⟩
    rfl rfl (by decide) (by decide) (by decide)
  exact ⟨h.1, h.2 ⟨"mod.py", 4, "LOW", "flake8", "E1", "m", none⟩
    (by decide) (by decide) (by decide)⟩

/-- Counterexample for **C1** as stated: a bandit result record whose
`line_number` is present but not a valid integer does not yield an issue with
line 1 — the `ValueError` raised by `int("oops")` is not caught (the
surrounding handler catches only `json.JSONDecodeError`), so `run_bandit`
aborts with an error instead. -/
theorem bandit_invalid_line_raises :
    run_bandit "snippet.py"
        (.results [⟨some (.jstr "oops"), some "HIGH", some "B102", some "exec used"⟩])
      = Except.error "ValueError: invalid line_number" := rfl

/-- **C1 (amended).** Field mapping of one bandit result record: the line is
the integer value of the reported line number, defaulting to 1 only when the
key is absent; the severity is the reported severity uppercased (default
`LOW`, also for a falsy empty severity); the rule defaults to `"BXXX"`; the
message defaults to `"Security issue"`. A line number that is present but
not a valid integer raises (aborting `run_bandit`) instead of defaulting
to 1. -/
theorem bandit_record_field_mapping (hint : String) (r : BanditRes) :
    (r.line_number = none →
      processBanditResult hint r
        = Except.ok ⟨hint, 1, pySevUpper r.issue_severity, "bandit",
            r.test_id.getD "BXXX", r.issue_text.getD "Security issue", none⟩) ∧
    (∀ (v : JsonVal) (n : Int), r.line_number = some v → pyInt v = some n →
      processBanditResult hint r
        = Except.ok ⟨hint, n, pySevUpper r.issue_severity, "bandit",
            r.test_id.getD "BXXX", r.issue_text.getD "Security issue", none⟩) ∧
    (∀ v : JsonVal, r.line_number = some v → pyInt v = none →
      processBanditResult hint r
        = Except.error "ValueError: invalid line_number") ∧
    pySevUpper none = "LOW" ∧ pySevUpper (some "") = "LOW" ∧
    (∀ s : String, s ≠ "" → pySevUpper (some s) = pyUpper s) := by
  refine ⟨fun h => ?_, fun v n hv hn => ?_, fun v hv hn => ?_, rfl, rfl,
    fun s hs => ?_⟩
  · simp [processBanditResult, h]
  · simp [processBanditResult, hv, hn]
  · simp [processBanditResult, hv, hn]
  · simp [pySevUpper, hs]

/-- Witness for **C1 (amended)**: an absent line number defaults to 1 with
all other defaults filled in; a numeric line number and present fields map
through (severity uppercased); a non-integer line number errors. -/
theorem bandit_record_field_mapping_witness :
    processBanditResult "snippet.py" ⟨none, none, none, none⟩
      = Except.ok ⟨"snippet.py", 1, "LOW", "bandit", "BXXX", "Security issue", none⟩ ∧
    processBanditResult "snippet.py"
        ⟨some (.jnum 7), some "high", some "B307", some "eval used"⟩
      = Except.ok ⟨"snippet.py", 7, "HIGH", "bandit", "B307", "eval used", none⟩ ∧
    processBanditResult "snippet.py" ⟨some (.jstr "oops"), none, none, none⟩
      = Except.error "ValueError: invalid line_number" := by
  refine ⟨?_, ?_, ?_⟩
  · exact (bandit_record_field_mapping "snippet.py" ⟨none, none, none, none⟩).1 rfl
  · rw [(bandit_record_field_mapping "snippet.py"
      ⟨some (.jnum 7), some "high", some "B307", some "eval used"⟩).2.1
      (.jnum 7) 7 rfl rfl]
    rfl
  · exact (bandit_record_field_mapping "snippet.py"
      ⟨some (.jstr "oops"), none, none, none⟩).2.2.1 (.jstr "oops") rfl rfl

/-- **C2.** A missing analyzer executable does not abort the review: the
affected adapter returns exactly one synthetic issue at line 1, tool-tagged,
rule `INSTALL`, and the aggregation of the remaining tools continues, so the
review still returns an issue list. -/
theorem review_missing_tool_degrades (hint : String) (f8o : Flake8Outcome)
    (bdo : BanditOutcome) (blocks : List Block) :
    run_flake8 hint .notFound
      = [⟨hint, 1, "LOW", "flake8", "INSTALL",
          "flake8 not found. Did you install requirements?", none⟩] ∧
    run_bandit hint .notFound
      = Except.ok [⟨hint, 1, "LOW", "bandit", "INSTALL",
          "bandit not found. Did you install requirements?", none⟩] ∧
    review_code_string hint f8o .notFound blocks
      = Except.ok ((run_flake8 hint f8o
          ++ ⟨hint, 1, "LOW", "bandit", "INSTALL",
              "bandit not found. Did you install requirements?", none⟩
            :: run_complexity hint 3 blocks).map annotate) ∧
    review_code_string hint .notFound bdo blocks
      = (run_bandit hint bdo).map (fun bd =>
          (⟨hint, 1, "LOW", "flake8", "INSTALL",
              "flake8 not found. Did you install requirements?", none⟩
            :: (bd ++ run_complexity hint 3 blocks)).map annotate) := by
  refine ⟨rfl, rfl, ?_, ?_⟩
  · simp [review_code_string, run_bandit, List.append_assoc]
  · cases hb : run_bandit hint bdo with
    | error e => simp [review_code_string, hb, Except.map]
    | ok bd => simp [review_code_string, hb, Except.map, run_flake8]

/-- **C3.** Under the analyzers' documented 1-based line reporting (their
rows, `line_number`s and `lineno`s are ≥ 1, which the code passes through
unchanged), every issue returned by `review_code_string` has `line ≥ 1`, and
its `tool` is one of the three analyzer tags: `"flake8"` (the style tool),
`"bandit"` (the security tool), `"complexity"`. -/
theorem review_line_tool_invariant (hint : String) (f8o : Flake8Outcome)
    (bdo : BanditOutcome) (blocks : List Block) (l : List Issue)
    (hf : flake8PosB f8o = true) (hb : banditPosB bdo = true)
    (hc : blocksPosB blocks = true)
    (hrev : review_code_string hint f8o bdo blocks = Except.ok l) :
    ∀ i ∈ l, 1 ≤ i.line ∧
      (i.tool = "flake8" ∨ i.tool = "bandit" ∨ i.tool = "complexity") := by
  intro i hi
  rcases mem_review_ok hrev hi with ⟨j, rfl, hcase⟩
  have hline : 1 ≤ j.line := by
    rcases hcase with hj | ⟨bd, hbd, hj⟩ | hj
    · cases f8o with
      | notFound =>
        simp only [run_flake8, List.mem_singleton] at hj
        rw [hj]
      | stdout s =>
        rw [run_flake8_stdout_eq] at hj
        rcases List.mem_filterMap.mp hj with ⟨line, hlmem, hp⟩
        rcases parseFlake8Line_some_inv hp with
          ⟨-, -, -, -, row, col, code, text, hsplit, hrow⟩
        simp only [flake8PosB] at hf
        have hall := List.all_eq_true.mp hf line hlmem
        simp only [lineRowPosB, hsplit, hrow, decide_eq_true_eq] at hall
        exact hall
    · cases bdo with
      | notFound =>
        simp only [run_bandit, Except.ok.injEq] at hbd
        subst hbd
        simp only [List.mem_singleton] at hj
        rw [hj]
      | decodeError =>
        simp only [run_bandit, Except.ok.injEq] at hbd
        subst hbd
        exact absurd hj (by simp)
      | results rs =>
        rcases banditLoop_ok_mem hbd hj with hmem | ⟨r, hr, hpr⟩
        · exact absurd hmem (by simp)
        · rcases processBanditResult_ok_inv hpr with ⟨-, -, -, hl⟩
          rcases hl with ⟨-, hl1⟩ | ⟨v, hv, hn⟩
          · rw [hl1]
          · simp only [banditPosB] at hb
            have hall := List.all_eq_true.mp hb r hr
            simp only [banditResPosB, hv, hn, decide_eq_true_eq] at hall
            exact hall
    · rcases mem_run_complexity_inv hj with ⟨b, hbmem, -, hib⟩
      simp only [blocksPosB] at hc
      have hall := List.all_eq_true.mp hc b hbmem
      rw [hib]
      exact of_decide_eq_true hall
  have htool : j.tool = "flake8" ∨ j.tool = "bandit" ∨ j.tool = "complexity" :=
    tool_of_mem_adapters hcase
  exact ⟨hline, htool⟩

/-- Witness for **C3**: a concrete review run over a flake8 row at line 3, a
bandit record at line 2 and a complexity block at line 5; every returned
issue has a 1-based line and one of the three tool tags. -/
theorem review_line_tool_invariant_witness :
    review_code_string "snippet.py"
        (.stdout "3|1|E302|expected 2 blank lines")
        (.results [⟨some (.jnum 2), some "high", some "B307", some "eval"⟩])
        [⟨"f", 4, 5⟩]
      = Except.ok
        [⟨"snippet.py", 3, "LOW", "flake8", "E302", "expected 2 blank lines",
            some "Follow PEP 8 (naming, spacing, line length) for readability."⟩,
          ⟨"snippet.py", 2, "HIGH", "bandit", "B307", "eval",
            some "Avoid unsafe functions (e.g., eval); validate and sanitize inputs."⟩,
          ⟨"snippet.py", 5, "MEDIUM", "complexity", "CC",
            "Function 'f' is too complex (CC=4).",
            some "Extract smaller functions; reduce nesting/branches."⟩] ∧
    ∀ i ∈ [⟨"snippet.py", 3, "LOW", "flake8", "E302", "expected 2 blank lines",
            some "Follow PEP 8 (naming, spacing, line length) for readability."⟩,
          ⟨"snippet.py", 2, "HIGH", "bandit", "B307", "eval",
            some "Avoid unsafe functions (e.g., eval); validate and sanitize inputs."⟩,
          (⟨"snippet.py", 5, "MEDIUM", "complexity", "CC",
            "Function 'f' is too complex (CC=4).",
            some "Extract smaller functions; reduce nesting/branches."⟩ : Issue)],
      1 ≤ i.line ∧
        (i.tool = "flake8" ∨ i.tool = "bandit" ∨ i.tool = "complexity") :=
  ⟨rfl,
    review_line_tool_invariant "snippet.py"
      (.stdout "3|1|E302|expected 2 blank lines")
      (.results [⟨some (.jnum 2), some "high", some "B307", some "eval"⟩])
      [⟨"f", 4, 5⟩] _ rfl rfl rfl rfl⟩

/-- **C8.** The renderer returns a plain string unchanged; renders zero
issues as exactly the fixed success message; and for a single issue with a
(truthy) suggestion its output contains the uppercased tool name, the rule,
the severity, `file:line`, the message, and the tip text. -/
theorem issues_to_markdown_spec :
    (∀ s : String, issues_to_markdown (.ofString s) = s) ∧
    issues_to_markdown (.ofIssues []) = "✅ No issues found. Great job!" ∧
    (∀ (i : Issue) (tip : String), i.suggestion = some tip → tip ≠ "" →
      strContains (issues_to_markdown (.ofIssues [i])) (pyUpper i.tool) ∧
      strContains (issues_to_markdown (.ofIssues [i])) i.rule ∧
      strContains (issues_to_markdown (.ofIssues [i])) i.severity ∧
      strContains (issues_to_markdown (.ofIssues [i]))
        (i.file ++ ":" ++ toString i.line) ∧
      strContains (issues_to_markdown (.ofIssues [i])) i.message ∧
      strContains (issues_to_markdown (.ofIssues [i])) tip) := by
  refine ⟨fun s => rfl, rfl, fun i tip hsugg htip => ?_⟩
  have hmd : issues_to_markdown (.ofIssues [i])
      = "### Review Comments" ++ "\n" ++ renderIssue i := rfl
  have hri : renderIssue i
      = "- **" ++ pyUpper i.tool ++ " " ++ i.rule ++ "** (" ++ i.severity ++
        ") at `" ++ i.file ++ ":" ++ toString i.line ++ "` — " ++ i.message ++
        (" Tip: " ++ tip) := by
    unfold renderIssue
    rw [hsugg]
    simp [htip]
  rw [hmd, hri]
  refine ⟨⟨"### Review Comments" ++ "\n" ++ "- **",
      " " ++ i.rule ++ "** (" ++ i.severity ++ ") at `" ++ i.file ++ ":" ++
        toString i.line ++ "` — " ++ i.message ++ (" Tip: " ++ tip),
      by simp only [String.append_assoc]⟩,
    ⟨"### Review Comments" ++ "\n" ++ "- **" ++ pyUpper i.tool ++ " ",
      "** (" ++ i.severity ++ ") at `" ++ i.file ++ ":" ++ toString i.line ++
        "` — " ++ i.message ++ (" Tip: " ++ tip),
      by simp only [String.append_assoc]⟩,
    ⟨"### Review Comments" ++ "\n" ++ "- **" ++ pyUpper i.tool ++ " " ++
        i.rule ++ "** (",
      ") at `" ++ i.file ++ ":" ++ toString i.line ++ "` — " ++ i.message ++
        (" Tip: " ++ tip),
      by simp only [String.append_assoc]⟩,
    ⟨"### Review Comments" ++ "\n" ++ "- **" ++ pyUpper i.tool ++ " " ++
        i.rule ++ "** (" ++ i.severity ++ ") at `",
      "` — " ++ i.message ++ (" Tip: " ++ tip),
      by simp only [String.append_assoc]⟩,
    ⟨"### Review Comments" ++ "\n" ++ "- **" ++ pyUpper i.tool ++ " " ++
        i.rule ++ "** (" ++ i.severity ++ ") at `" ++ i.file ++ ":" ++
        toString i.line ++ "` — ",
      " Tip: " ++ tip,
      by simp only [String.append_assoc]⟩,
    ⟨"### Review Comments" ++ "\n" ++ "- **" ++ pyUpper i.tool ++ " " ++
        i.rule ++ "** (" ++ i.severity ++ ") at `" ++ i.file ++ ":" ++
        toString i.line ++ "` — " ++ i.message ++ " Tip: ",
      "",
      by simp only [String.append_assoc, String.append_empty]⟩⟩

/-- Witness for **C8**: the three renderer facts at a concrete issue with a
suggestion. -/
theorem issues_to_markdown_spec_witness :
    strContains
        (issues_to_markdown (.ofIssues [⟨"snippet.py", 3, "LOW", "flake8",
          "E302", "expected 2 blank lines", some "Follow PEP 8"⟩]))
        (pyUpper "flake8") ∧
    strContains
        (issues_to_markdown (.ofIssues [⟨"snippet.py", 3, "LOW", "flake8",
          "E302", "expected 2 blank lines", some "Follow PEP 8"⟩]))
        ("snippet.py" ++ ":" ++ toString (3 : Int)) ∧
    strContains
        (issues_to_markdown (.ofIssues [⟨"snippet.py", 3, "LOW", "flake8",
          "E302", "expected 2 blank lines", some "Follow PEP 8"⟩]))
        "Follow PEP 8" := by
  have h := issues_to_markdown_spec.2.2
    ⟨"snippet.py", 3, "LOW", "flake8", "E302", "expected 2 blank lines",
      some "Follow PEP 8"⟩
    "Follow PEP 8" rfl (by decide)
  exact ⟨h.1, h.2.2.2.1, h.2.2.2.2.2⟩

/-- **C10.** Every issue returned by `review_code_string` carries a
suggestion: every tool tag the adapters produce (including the synthetic
`INSTALL` issues) matches one of the three annotator keys, so the
no-suggestion branch of `friendly_suggestion` is unreachable from the
aggregator. -/
theorem review_suggestion_total (hint : String) (f8o : Flake8Outcome)
    (bdo : BanditOutcome) (blocks : List Block) (l : List Issue)
    (hrev : review_code_string hint f8o bdo blocks = Except.ok l) :
    ∀ i ∈ l, i.suggestion ≠ none ∧ friendly_suggestion i ≠ none := by
  intro i hi
  rcases mem_review_ok hrev hi with ⟨j, rfl, hcase⟩
  have htool := tool_of_mem_adapters hcase
  have hfs : friendly_suggestion j ≠ none := by
    rcases htool with h | h | h <;> simp [friendly_suggestion, h]
  exact ⟨hfs, hfs⟩

/-- Witness for **C10**: a review with flake8 missing, no bandit findings
and one complexity finding; both returned issues carry a suggestion. -/
theorem review_suggestion_total_witness :
    review_code_string "s.py" .notFound (.results []) [⟨"g", 3, 2⟩]
      = Except.ok
        [⟨"s.py", 1, "LOW", "flake8", "INSTALL",
            "flake8 not found. Did you install requirements?",
            some "Follow PEP 8 (naming, spacing, line length) for readability."⟩,
          ⟨"s.py", 2, "MEDIUM", "complexity", "CC",
            "Function 'g' is too complex (CC=3).",
            some "Extract smaller functions; reduce nesting/branches."⟩] ∧
    ∀ i ∈ [⟨"s.py", 1, "LOW", "flake8", "INSTALL",
            "flake8 not found. Did you install requirements?",
            some "Follow PEP 8 (naming, spacing, line length) for readability."⟩,
          (⟨"s.py", 2, "MEDIUM", "complexity", "CC",
            "Function 'g' is too complex (CC=3).",
            some "Extract smaller functions; reduce nesting/branches."⟩ : Issue)],
      i.suggestion ≠ none ∧ friendly_suggestion i ≠ none :=
  ⟨rfl,
    review_suggestion_total "s.py" .notFound (.results []) [⟨"g", 3, 2⟩] _ rfl⟩

end CodeAssist
